import Mathlib

/-!
Verification of the TradingApp core: the candle aggregation engine
(app/services/candles.py) and the backtest simulation engine
(app/services/backtest_engine.py), shallowly embedded in Lean.

Modeling conventions:
* Prices, equity and indicator values are modeled in exact rational
  arithmetic (the Python code uses floats; every claim under scrutiny is
  about exact formulas, ordering and definedness, not rounding).
* pandas NaN / "undefined" is modeled as Option.none; the two IEEE
  special cases the RSI code can actually hit (x/0 with x > 0, and 0/0)
  are modeled explicitly at the one spot they occur.
* Python datetime is modeled by the record of the seven fields the code
  touches, compared lexicographically exactly as naive datetimes are.
* Bar timestamps flowing through the backtest loop are only carried,
  never computed with, so they are modeled as plain naturals.
-/

namespace TradingApp

/-- Model of a naive Python `datetime`: the seven fields the candle code
reads, writes (via `replace`) or compares. -/
structure DateTime where
  year : Nat
  month : Nat
  day : Nat
  hour : Nat
  minute : Nat
  second : Nat
  microsecond : Nat
deriving DecidableEq, Repr, Inhabited

/-- The field tuple of a datetime, in comparison order. -/
def DateTime.fields (t : DateTime) : List Nat :=
  [t.year, t.month, t.day, t.hour, t.minute, t.second, t.microsecond]

/-- Lexicographic strict order on equal-length field lists, as Python
compares naive datetimes. -/
def lexLt : List Nat → List Nat → Bool
  | [], [] => false
  | [], _ :: _ => true
  | _ :: _, [] => false
  | a :: as, b :: bs => if a < b then true else if b < a then false else lexLt as bs

/-- `a < b` on datetimes. -/
def DateTime.lt (a b : DateTime) : Bool := lexLt a.fields b.fields

/-- A closed (or in-progress) OHLC candle; `open_` models the Python
field `open` (a Lean keyword). -/
structure Candle where
  start_time : DateTime
  open_ : ℚ
  high : ℚ
  low : ℚ
  close : ℚ
deriving DecidableEq, Repr, Inhabited

/-- State of `CandleBuilder`.  In the Python class the five `current_*`
fields are all `None` or all set together; that invariant is expressed
by merging them into one `Option Candle`. -/
structure CandleBuilder where
  timeframe_minutes : Nat
  current : Option Candle
deriving DecidableEq, Repr

/-- `CandleBuilder.__init__`. -/
def CandleBuilder.init (tf : Nat) : CandleBuilder := ⟨tf, none⟩

/-- `CandleBuilder._compute_bucket_start`:
`bucket_minute = (ts.minute // timeframe_minutes) * timeframe_minutes`,
then `ts.replace(minute=bucket_minute, second=0, microsecond=0)`. -/
def _compute_bucket_start (tf : Nat) (ts : DateTime) : DateTime :=
  let bucket_minute := ts.minute / tf * tf
  { ts with minute := bucket_minute, second := 0, microsecond := 0 }

/-- `CandleBuilder.update_with_tick`: returns the updated builder and the
sealed candle, if the bucket rolled over. -/
def update_with_tick (b : CandleBuilder) (price : ℚ) (ts : DateTime) :
    CandleBuilder × Option Candle :=
  let bucket_start := _compute_bucket_start b.timeframe_minutes ts
  match b.current with
  | none =>
      ({ b with current := some ⟨bucket_start, price, price, price, price⟩ }, none)
  | some cur =>
      if bucket_start = cur.start_time then
        ({ b with current := some { cur with
            high := max cur.high price,
            low := min cur.low price,
            close := price } }, none)
      else if DateTime.lt cur.start_time bucket_start then
        ({ b with current := some ⟨bucket_start, price, price, price, price⟩ }, some cur)
      else
        (b, none)

/-- Feed a list of `(price, timestamp)` ticks through the builder,
collecting every sealed candle in order. -/
def processTicks (b : CandleBuilder) : List (ℚ × DateTime) → CandleBuilder × List Candle
  | [] => (b, [])
  | (p, t) :: rest =>
      let r := update_with_tick b p t
      let r2 := processTicks r.1 rest
      (r2.1, (match r.2 with | some c => [c] | none => []) ++ r2.2)

/-! ### Order lemmas for the datetime comparison -/

theorem lexLt_irrefl : ∀ a : List Nat, lexLt a a = false := by
  intro a
  induction a with
  | nil => rfl
  | cons x xs ih => simp [lexLt, ih]

theorem lexLt_asymm : ∀ a b : List Nat, lexLt a b = true → lexLt b a = false := by
  intro a
  induction a with
  | nil =>
      intro b h
      cases b with
      | nil => simp [lexLt] at h
      | cons y ys => simp [lexLt]
  | cons x xs ih =>
      intro b h
      cases b with
      | nil => simp [lexLt] at h
      | cons y ys =>
          by_cases hxy : x < y
          · have hyx : ¬ y < x := by omega
            simp [lexLt, hyx, hxy]
          · by_cases hyx : y < x
            · simp [lexLt, hxy, hyx] at h
            · have hxy2 : x = y := by omega
              subst hxy2
              simp [lexLt, hxy] at h ⊢
              exact ih ys h

theorem DateTime.lt_asymm (a b : DateTime) :
    DateTime.lt a b = true → DateTime.lt b a = false :=
  fun h => lexLt_asymm a.fields b.fields h

theorem DateTime.lt_ne (a b : DateTime) : DateTime.lt a b = true → a ≠ b := by
  intro h hab
  subst hab
  rw [DateTime.lt, lexLt_irrefl] at h
  exact Bool.false_ne_true h

/-! ### Bucket transition counting (for the single-emission property) -/

/-- Bucket of a tick timestamp. -/
def bucketOf (tf : Nat) (ts : DateTime) : DateTime := _compute_bucket_start tf ts

/-- Buckets of a timestamp list are non-decreasing, starting from a
current bucket `B` (the "chronological ticks" precondition). -/
def bucketsNonDecrFrom (tf : Nat) (B : DateTime) : List DateTime → Bool
  | [] => true
  | t :: rest =>
      (decide (bucketOf tf t = B) || DateTime.lt B (bucketOf tf t)) &&
        bucketsNonDecrFrom tf (bucketOf tf t) rest

/-- Number of strict bucket transitions of a timestamp list relative to a
current bucket `B`. -/
def transitionsFrom (tf : Nat) (B : DateTime) : List DateTime → Nat
  | [] => 0
  | t :: rest =>
      (if bucketOf tf t = B then 0 else 1) + transitionsFrom tf (bucketOf tf t) rest

/-- Number of strict bucket transitions inside a timestamp list (adjacent
pairs whose buckets differ). -/
def strictTransitions (tf : Nat) : List DateTime → Nat
  | [] => 0
  | t :: rest => transitionsFrom tf (bucketOf tf t) rest

/-- The tick stream is chronological at bucket granularity. -/
def chronologicalTicks (tf : Nat) (ticks : List (ℚ × DateTime)) : Bool :=
  match ticks.map Prod.snd with
  | [] => true
  | t :: rest => bucketsNonDecrFrom tf (bucketOf tf t) rest

/-- Counting seals from a builder that already holds an in-progress
candle: one seal per strict bucket transition. -/
theorem processTicks_seal_count (tf : Nat) :
    ∀ (ticks : List (ℚ × DateTime)) (cand : Candle),
      bucketsNonDecrFrom tf cand.start_time (ticks.map Prod.snd) = true →
      ((processTicks ⟨tf, some cand⟩ ticks).2).length =
        transitionsFrom tf cand.start_time (ticks.map Prod.snd) := by
  intro ticks
  induction ticks with
  | nil => intro cand _; rfl
  | cons pt rest ih =>
      obtain ⟨p, t⟩ := pt
      intro cand h
      rw [List.map_cons, bucketsNonDecrFrom] at h
      rw [Bool.and_eq_true, Bool.or_eq_true, decide_eq_true_eq] at h
      obtain ⟨h1, h2⟩ := h
      by_cases heq : bucketOf tf t = cand.start_time
      · have htrans : transitionsFrom tf cand.start_time ((t :: rest.map Prod.snd)) =
            transitionsFrom tf (bucketOf tf t) (rest.map Prod.snd) := by
          rw [transitionsFrom, if_pos heq]
          omega
        have hcand2 : bucketsNonDecrFrom tf cand.start_time (rest.map Prod.snd) = true := by
          rw [← heq]; simpa using h2
        have hrec := ih { cand with
            high := max cand.high p, low := min cand.low p, close := p } (by simpa using hcand2)
        rw [List.map_cons, htrans, heq]
        simp only [processTicks, update_with_tick]
        rw [if_pos (show _compute_bucket_start tf t = cand.start_time from heq)]
        simpa using hrec
      · have hlt : DateTime.lt cand.start_time (bucketOf tf t) = true := by
          rcases h1 with h1 | h1
          · exact absurd h1 heq
          · exact h1
        have hrec := ih ⟨bucketOf tf t, p, p, p, p⟩ (by simpa using h2)
        have htrans : transitionsFrom tf cand.start_time ((t :: rest.map Prod.snd)) =
            1 + transitionsFrom tf (bucketOf tf t) (rest.map Prod.snd) := by
          rw [transitionsFrom, if_neg heq]
        rw [List.map_cons, htrans]
        simp only [processTicks, update_with_tick, bucketOf] at hrec ⊢
        rw [if_neg (show ¬ _compute_bucket_start tf t = cand.start_time from heq),
          if_pos (show DateTime.lt cand.start_time (_compute_bucket_start tf t) = true from hlt)]
        simp only [List.length_append, List.length_cons, List.length_nil,
          List.singleton_append]
        omega

/-- C3: For every chronological (non-decreasing-bucket) sequence of ticks
whose bucket assignments contain K strict bucket transitions, the
aggregator seals exactly K candles — one per transition, including
transitions that skip intermediate buckets and buckets with one tick. -/
theorem C3_single_emission (tf : Nat) (ticks : List (ℚ × DateTime))
    (h : chronologicalTicks tf ticks = true) :
    ((processTicks (CandleBuilder.init tf) ticks).2).length =
      strictTransitions tf (ticks.map Prod.snd) := by
  cases ticks with
  | nil => rfl
  | cons pt rest =>
      obtain ⟨p, t⟩ := pt
      have h2 : bucketsNonDecrFrom tf (bucketOf tf t) (rest.map Prod.snd) = true := by
        simpa [chronologicalTicks] using h
      have := processTicks_seal_count tf rest ⟨bucketOf tf t, p, p, p, p⟩ (by simpa using h2)
      simp only [processTicks, update_with_tick, CandleBuilder.init, bucketOf,
        List.map_cons, strictTransitions] at *
      simpa using this

/-- Witness for C3: ticks at 9:00, 9:05, 9:31 (a skipped 9:15 bucket) and
10:02 (a one-tick bucket) produce exactly 2 sealed candles. -/
theorem C3_single_emission_witness :
    ((processTicks (CandleBuilder.init 15)
        [(10, ⟨2024, 1, 2, 9, 0, 0, 0⟩), (11, ⟨2024, 1, 2, 9, 5, 30, 0⟩),
         (12, ⟨2024, 1, 2, 9, 31, 0, 0⟩), (13, ⟨2024, 1, 2, 10, 2, 0, 0⟩)]).2).length =
      strictTransitions 15
        [⟨2024, 1, 2, 9, 0, 0, 0⟩, ⟨2024, 1, 2, 9, 5, 30, 0⟩,
         ⟨2024, 1, 2, 9, 31, 0, 0⟩, ⟨2024, 1, 2, 10, 2, 0, 0⟩] :=
  C3_single_emission 15 _ (by decide)

/-! ### C4: bucket assignment -/

/-- A concrete date (2024-01-02) at a given hour/minute/second, used by
the concrete scenarios below. -/
def dtm (h m s : Nat) : DateTime := ⟨2024, 1, 2, h, m, s, 0⟩

/-- C4: the bucket start keeps the date and hour, floors the minute to
the largest multiple of the timeframe not exceeding it, and zeroes the
seconds and microseconds; for timeframe 15, ticks at minutes 7 and 14
land in the :00 bucket, and a tick at minute 15 seals the :00 candle and
opens a fresh in-progress candle at :15 seeded with that tick's price. -/
theorem C4_bucketing :
    (∀ (m : Nat) (ts : DateTime), 0 < m →
      m ∣ (_compute_bucket_start m ts).minute ∧
      (_compute_bucket_start m ts).minute ≤ ts.minute ∧
      ts.minute < (_compute_bucket_start m ts).minute + m ∧
      (_compute_bucket_start m ts).second = 0 ∧
      (_compute_bucket_start m ts).microsecond = 0 ∧
      (_compute_bucket_start m ts).year = ts.year ∧
      (_compute_bucket_start m ts).month = ts.month ∧
      (_compute_bucket_start m ts).day = ts.day ∧
      (_compute_bucket_start m ts).hour = ts.hour) ∧
    ((update_with_tick (CandleBuilder.init 15) 100 (dtm 9 7 3)).2 = none ∧
     (update_with_tick (update_with_tick (CandleBuilder.init 15) 100 (dtm 9 7 3)).1
        101 (dtm 9 14 45)).2 = none ∧
     _compute_bucket_start 15 (dtm 9 7 3) = dtm 9 0 0 ∧
     _compute_bucket_start 15 (dtm 9 14 45) = dtm 9 0 0 ∧
     (update_with_tick
        (update_with_tick (update_with_tick (CandleBuilder.init 15) 100 (dtm 9 7 3)).1
          101 (dtm 9 14 45)).1 102 (dtm 9 15 0)).2 =
       some ⟨dtm 9 0 0, 100, 101, 100, 101⟩ ∧
     (update_with_tick
        (update_with_tick (update_with_tick (CandleBuilder.init 15) 100 (dtm 9 7 3)).1
          101 (dtm 9 14 45)).1 102 (dtm 9 15 0)).1.current =
       some ⟨dtm 9 15 0, 102, 102, 102, 102⟩) := by
  constructor
  · intro m ts hm
    refine ⟨⟨ts.minute / m, (Nat.mul_comm _ _)⟩, Nat.div_mul_le_self _ _, ?_, rfl, rfl, rfl, rfl, rfl, rfl⟩
    have h1 : ts.minute / m * m + ts.minute % m = ts.minute := Nat.div_add_mod' ts.minute m
    have h2 := Nat.mod_lt ts.minute hm
    simp only [_compute_bucket_start]
    omega
  · decide

/-- Witness for C4: the general bucket-floor facts at timeframe 15 and
the timestamp 09:07:03. -/
theorem C4_bucketing_witness :
    15 ∣ (_compute_bucket_start 15 (dtm 9 7 3)).minute ∧
    (_compute_bucket_start 15 (dtm 9 7 3)).minute ≤ (dtm 9 7 3).minute ∧
    (dtm 9 7 3).minute < (_compute_bucket_start 15 (dtm 9 7 3)).minute + 15 ∧
    (_compute_bucket_start 15 (dtm 9 7 3)).second = 0 ∧
    (_compute_bucket_start 15 (dtm 9 7 3)).microsecond = 0 ∧
    (_compute_bucket_start 15 (dtm 9 7 3)).year = (dtm 9 7 3).year ∧
    (_compute_bucket_start 15 (dtm 9 7 3)).month = (dtm 9 7 3).month ∧
    (_compute_bucket_start 15 (dtm 9 7 3)).day = (dtm 9 7 3).day ∧
    (_compute_bucket_start 15 (dtm 9 7 3)).hour = (dtm 9 7 3).hour :=
  C4_bucketing.1 15 (dtm 9 7 3) (by decide)

/-! ### C5: out-of-order ticks are silently dropped -/

/-- C5: an update whose tick bucket is strictly earlier than the
in-progress candle's bucket returns no sealed candle and leaves the
whole builder state unchanged. -/
theorem C5_out_of_order_dropped (b : CandleBuilder) (c : Candle) (price : ℚ) (ts : DateTime)
    (hc : b.current = some c)
    (hlt : DateTime.lt (_compute_bucket_start b.timeframe_minutes ts) c.start_time = true) :
    update_with_tick b price ts = (b, none) := by
  have hne : _compute_bucket_start b.timeframe_minutes ts ≠ c.start_time :=
    DateTime.lt_ne _ _ hlt
  have hnlt : DateTime.lt c.start_time (_compute_bucket_start b.timeframe_minutes ts) = false :=
    DateTime.lt_asymm _ _ hlt
  simp only [update_with_tick, hc]
  rw [if_neg hne, if_neg (by simp [hnlt])]

/-- Witness for C5: a builder holding a 09:15 candle drops a 09:05 tick. -/
theorem C5_out_of_order_dropped_witness :
    update_with_tick ⟨15, some ⟨dtm 9 15 0, 1, 3, 1, 2⟩⟩ 7 (dtm 9 5 0) =
      (⟨15, some ⟨dtm 9 15 0, 1, 3, 1, 2⟩⟩, none) :=
  C5_out_of_order_dropped _ ⟨dtm 9 15 0, 1, 3, 1, 2⟩ 7 (dtm 9 5 0) rfl (by decide)

/-! ### C6: OHLC invariant -/

/-- The OHLC well-formedness of a candle, as stated in the spec. -/
def candleInv (c : Candle) : Prop :=
  c.low ≤ min c.open_ c.close ∧ max c.open_ c.close ≤ c.high

/-- A single update keeps the in-progress candle well-formed and only
seals well-formed candles. -/
theorem update_with_tick_inv (b : CandleBuilder) (p : ℚ) (t : DateTime)
    (hb : ∀ c, b.current = some c → candleInv c) :
    (∀ c, (update_with_tick b p t).1.current = some c → candleInv c) ∧
    (∀ c, (update_with_tick b p t).2 = some c → candleInv c) := by
  cases hcur : b.current with
  | none =>
      constructor
      · intro c hc
        simp only [update_with_tick, hcur] at hc
        obtain rfl : Candle.mk (_compute_bucket_start b.timeframe_minutes t) p p p p = c := by
          simpa using hc
        simp [candleInv]
      · intro c hc
        simp [update_with_tick, hcur] at hc
  | some cur =>
      have hcInv := hb cur hcur
      have hlo : cur.low ≤ cur.open_ := le_trans hcInv.1 (min_le_left _ _)
      have hhi : cur.open_ ≤ cur.high := le_trans (le_max_left _ _) hcInv.2
      by_cases heq : _compute_bucket_start b.timeframe_minutes t = cur.start_time
      · constructor
        · intro c hc
          simp only [update_with_tick, hcur, if_pos heq] at hc
          obtain rfl : { cur with high := max cur.high p, low := min cur.low p, close := p } = c := by
            simpa using hc
          refine ⟨le_min (le_trans (min_le_left _ _) hlo) (min_le_right _ _),
            max_le (le_trans hhi (le_max_left _ _)) (le_max_right _ _)⟩
        · intro c hc
          simp [update_with_tick, hcur, if_pos heq] at hc
      · by_cases hlt : DateTime.lt cur.start_time (_compute_bucket_start b.timeframe_minutes t) = true
        · constructor
          · intro c hc
            simp only [update_with_tick, hcur, if_neg heq, if_pos hlt] at hc
            obtain rfl : Candle.mk (_compute_bucket_start b.timeframe_minutes t) p p p p = c := by
              simpa using hc
            simp [candleInv]
          · intro c hc
            simp only [update_with_tick, hcur, if_neg heq, if_pos hlt] at hc
            obtain rfl : cur = c := by simpa using hc
            exact hcInv
        · constructor
          · intro c hc
            simp only [update_with_tick, hcur, if_neg heq, if_neg hlt] at hc
            obtain rfl : cur = c := by simpa using hc
            exact hcInv
          · intro c hc
            simp [update_with_tick, hcur, if_neg heq, if_neg hlt] at hc

/-- Invariant propagation of `candleInv` through a whole tick stream. -/
theorem processTicks_inv :
    ∀ (ticks : List (ℚ × DateTime)) (b : CandleBuilder),
      (∀ c, b.current = some c → candleInv c) →
      (∀ c, c ∈ (processTicks b ticks).2 → candleInv c) ∧
      (∀ c, (processTicks b ticks).1.current = some c → candleInv c) := by
  intro ticks
  induction ticks with
  | nil =>
      intro b hb
      refine ⟨?_, fun c hc => hb c hc⟩
      intro c hc
      simp [processTicks] at hc
  | cons pt rest ih =>
      obtain ⟨p, t⟩ := pt
      intro b hb
      have hstep := update_with_tick_inv b p t hb
      have hrest := ih (update_with_tick b p t).1 hstep.1
      constructor
      · intro c hc
        simp only [processTicks, List.mem_append] at hc
        rcases hc with hc | hc
        · cases hsd : (update_with_tick b p t).2 with
          | none => rw [hsd] at hc; simp at hc
          | some sc =>
              rw [hsd] at hc
              have hcsc : c = sc := by simpa using hc
              rw [hcsc]
              exact hstep.2 sc hsd
        · exact hrest.1 c hc
      · intro c hc
        simp only [processTicks] at hc
        exact hrest.2 c hc

/-- C6: every candle sealed by the aggregator on any tick sequence
satisfies `low ≤ min(open, close)` and `max(open, close) ≤ high`, and so
does the in-progress candle after every update. -/
theorem C6_ohlc_invariant (tf : Nat) (ticks : List (ℚ × DateTime)) (c : Candle) :
    (c ∈ (processTicks (CandleBuilder.init tf) ticks).2 →
      c.low ≤ min c.open_ c.close ∧ max c.open_ c.close ≤ c.high) ∧
    ((processTicks (CandleBuilder.init tf) ticks).1.current = some c →
      c.low ≤ min c.open_ c.close ∧ max c.open_ c.close ≤ c.high) := by
  have h := processTicks_inv ticks (CandleBuilder.init tf)
    (by intro c hc; simp [CandleBuilder.init] at hc)
  exact ⟨fun hc => h.1 c hc, fun hc => h.2 c hc⟩

/-- Witness for C6: a two-bucket tick stream; the sealed 09:00 candle and
the in-progress 09:15 candle both satisfy the OHLC invariant. -/
theorem C6_ohlc_invariant_witness :
    ((⟨dtm 9 0 0, 5, 9, 2, 3⟩ : Candle).low ≤
        min (⟨dtm 9 0 0, 5, 9, 2, 3⟩ : Candle).open_ (⟨dtm 9 0 0, 5, 9, 2, 3⟩ : Candle).close ∧
      max (⟨dtm 9 0 0, 5, 9, 2, 3⟩ : Candle).open_ (⟨dtm 9 0 0, 5, 9, 2, 3⟩ : Candle).close ≤
        (⟨dtm 9 0 0, 5, 9, 2, 3⟩ : Candle).high) ∧
    ((⟨dtm 9 15 0, 4, 4, 4, 4⟩ : Candle).low ≤
        min (⟨dtm 9 15 0, 4, 4, 4, 4⟩ : Candle).open_ (⟨dtm 9 15 0, 4, 4, 4, 4⟩ : Candle).close ∧
      max (⟨dtm 9 15 0, 4, 4, 4, 4⟩ : Candle).open_ (⟨dtm 9 15 0, 4, 4, 4, 4⟩ : Candle).close ≤
        (⟨dtm 9 15 0, 4, 4, 4, 4⟩ : Candle).high) := by
  constructor
  · exact (C6_ohlc_invariant 15
      [(5, dtm 9 1 0), (9, dtm 9 2 0), (2, dtm 9 3 0), (3, dtm 9 4 0), (4, dtm 9 16 0)]
      ⟨dtm 9 0 0, 5, 9, 2, 3⟩).1 (by decide)
  · exact (C6_ohlc_invariant 15
      [(5, dtm 9 1 0), (9, dtm 9 2 0), (2, dtm 9 3 0), (3, dtm 9 4 0), (4, dtm 9 16 0)]
      ⟨dtm 9 15 0, 4, 4, 4, 4⟩).2 (by decide)

/-! ### Backtest engine embedding (app/services/backtest_engine.py)

The engine iterates over a dataframe whose rows carry the close price
and the indicator columns.  Only the columns the loop reads are modeled
(`Close`, `RSI`, `EMA_Trend`); `EMA_RSI_Fast`/`EMA_RSI_Slow` are computed
by the code but never consumed.  A NaN cell is `none`. -/

/-- `'LONG' | 'SHORT'` direction strings. -/
inductive Direction
  | LONG
  | SHORT
deriving DecidableEq, Repr, Inhabited

/-- The exit-reason strings recorded on trades. -/
inductive ExitReason
  | TP
  | TRAIL
  | EMA_EXIT
  | END_OF_BACKTEST
deriving DecidableEq, Repr, Inhabited

/-- One enriched bar of the indicator dataframe. -/
structure Row where
  close : ℚ
  rsi : Option ℚ
  ema_trend : Option ℚ
  time : Nat
deriving DecidableEq, Repr, Inhabited

/-- The `self.position` dictionary. -/
structure Position where
  direction : Direction
  entry_price : ℚ
  entry_time : Nat
  highest_price : ℚ
  lowest_price : ℚ
deriving DecidableEq, Repr, Inhabited

/-- The `BacktestTrade` record. -/
structure BacktestTrade where
  direction : Direction
  entry_time : Nat
  entry_price : ℚ
  exit_time : Nat
  exit_price : ℚ
  pnl_points : ℚ
  pnl_money : ℚ
  reason : ExitReason
deriving DecidableEq, Repr, Inhabited

/-- The engine's strategy parameters read by the simulation loop
(`lot_size` is an `int` in the code; modeled in ℚ since it is only used
as a multiplier). -/
structure Config where
  tp_points : ℚ
  trail_offset : ℚ
  lot_size : ℚ
  initial_equity : ℚ
deriving DecidableEq, Repr

/-- The engine's mutable runtime state. -/
structure EngineState where
  trades : List BacktestTrade
  equity_curve : List (Nat × ℚ)
  current_equity : ℚ
  position : Option Position
  highest_equity : ℚ
  lowest_equity : ℚ
deriving DecidableEq, Repr

/-- The `BacktestSummary` record. -/
structure BacktestSummary where
  total_trades : Nat
  win_trades : Nat
  loss_trades : Nat
  winrate : ℚ
  net_pnl_money : ℚ
  net_pnl_points : ℚ
  max_drawdown_pct : ℚ
  best_trade : Option BacktestTrade
  worst_trade : Option BacktestTrade
deriving DecidableEq, Repr

/-- The `BacktestResult` record. -/
structure BacktestResult where
  summary : BacktestSummary
  equity_curve : List (Nat × ℚ)
  trades : List BacktestTrade
deriving DecidableEq, Repr

/-- `BacktestEngine.check_buy_signal`: RSI crosses above 40.  The code
first refuses when a position is open, then when the current or previous
RSI is NaN or there is no previous row. -/
def check_buy_signal (position : Option Position) (row : Row) (prev_row : Option Row) : Bool :=
  if position.isSome then false
  else
    match row.rsi with
    | none => false
    | some r =>
        match prev_row with
        | none => false
        | some pr =>
            match pr.rsi with
            | none => false
            | some prr => decide (prr ≤ 40) && decide (40 < r)

/-- `BacktestEngine.check_sell_signal`: RSI crosses below 60. -/
def check_sell_signal (position : Option Position) (row : Row) (prev_row : Option Row) : Bool :=
  if position.isSome then false
  else
    match row.rsi with
    | none => false
    | some r =>
        match prev_row with
        | none => false
        | some pr =>
            match pr.rsi with
            | none => false
            | some prr => decide (60 ≤ prr) && decide (r < 60)

/-- `BacktestEngine.check_exit_conditions`: returns the position with its
trailing extreme updated, and the exit reason if one fired.  When the
trend EMA is NaN the code returns before touching the position. -/
def check_exit_conditions (cfg : Config) (pos : Position) (row : Row) :
    Position × Option ExitReason :=
  let current_price := row.close
  match row.ema_trend with
  | none => (pos, none)
  | some ema =>
      match pos.direction with
      | Direction.LONG =>
          let pos := { pos with highest_price := max pos.highest_price current_price }
          if pos.entry_price + cfg.tp_points ≤ current_price then (pos, some ExitReason.TP)
          else if current_price ≤ pos.highest_price - cfg.trail_offset then
            (pos, some ExitReason.TRAIL)
          else if current_price < ema then (pos, some ExitReason.EMA_EXIT)
          else (pos, none)
      | Direction.SHORT =>
          let pos := { pos with lowest_price := min pos.lowest_price current_price }
          if current_price ≤ pos.entry_price - cfg.tp_points then (pos, some ExitReason.TP)
          else if pos.lowest_price + cfg.trail_offset ≤ current_price then
            (pos, some ExitReason.TRAIL)
          else if ema < current_price then (pos, some ExitReason.EMA_EXIT)
          else (pos, none)

/-- `BacktestEngine._open_position`. -/
def _open_position (s : EngineState) (direction : Direction) (price : ℚ) (time : Nat) :
    EngineState :=
  { s with position := some ⟨direction, price, time, price, price⟩ }

/-- `BacktestEngine._close_position`: realize the P&L, update the equity
extrema, record the trade, clear the position. -/
def _close_position (cfg : Config) (s : EngineState) (exit_price : ℚ) (exit_time : Nat)
    (reason : ExitReason) : EngineState :=
  match s.position with
  | none => s
  | some pos =>
      let pnl_points :=
        match pos.direction with
        | Direction.LONG => exit_price - pos.entry_price
        | Direction.SHORT => pos.entry_price - exit_price
      let pnl_money := pnl_points * cfg.lot_size
      let current_equity := s.current_equity + pnl_money
      { s with
        current_equity := current_equity,
        highest_equity := max s.highest_equity current_equity,
        lowest_equity := min s.lowest_equity current_equity,
        trades := s.trades ++ [⟨pos.direction, pos.entry_time, pos.entry_price,
          exit_time, exit_price, pnl_points, pnl_money, reason⟩],
        position := none }

/-- The exit half of one loop iteration of `BacktestEngine.run`:
`if self.position: ... check_exit_conditions ... _close_position`. -/
def exitPhase (cfg : Config) (s : EngineState) (row : Row) : EngineState :=
  match s.position with
  | some pos =>
      match check_exit_conditions cfg pos row with
      | (pos2, some reason) =>
          _close_position cfg { s with position := some pos2 } row.close row.time reason
      | (pos2, none) => { s with position := some pos2 }
  | none => s

/-- The entry half of one loop iteration of `BacktestEngine.run`:
`if not self.position: check_buy_signal / check_sell_signal`. -/
def entryPhase (s : EngineState) (row : Row) (prev_row : Option Row) : EngineState :=
  if s.position.isNone then
    if check_buy_signal s.position row prev_row then
      _open_position s Direction.LONG row.close row.time
    else if check_sell_signal s.position row prev_row then
      _open_position s Direction.SHORT row.close row.time
    else s
  else s

/-- One full iteration of the per-bar loop: exit evaluation, then entry
evaluation, then one equity point for the bar. -/
def stepBar (cfg : Config) (s : EngineState) (row : Row) (prev_row : Option Row) :
    EngineState :=
  let s2 := entryPhase (exitPhase cfg s row) row prev_row
  { s2 with equity_curve := s2.equity_curve ++ [(row.time, s2.current_equity)] }

/-- The loop fold, threading `prev_row` exactly as the Python loop does. -/
def stepFold (cfg : Config) (p : EngineState × Option Row) (row : Row) :
    EngineState × Option Row :=
  (stepBar cfg p.1 row p.2, some row)

/-- The state reset at the top of `BacktestEngine.run`. -/
def initState (cfg : Config) : EngineState :=
  ⟨[], [], cfg.initial_equity, none, cfg.initial_equity, cfg.initial_equity⟩

/-- The engine state right after the bar loop of `BacktestEngine.run`
(seed equity point, then one `stepBar` per row), before the forced
end-of-backtest close. -/
def loopState (cfg : Config) (rows : List Row) : EngineState :=
  match rows with
  | [] => initState cfg
  | first :: _ =>
      (rows.foldl (stepFold cfg)
        ({ initState cfg with equity_curve := [(first.time, cfg.initial_equity)] }, none)).1

/-- `BacktestEngine._calculate_max_drawdown`. -/
def _calculate_max_drawdown (s : EngineState) : ℚ :=
  if s.equity_curve = [] ∨ s.highest_equity ≤ 0 then 0
  else |(s.lowest_equity - s.highest_equity) / s.highest_equity * 100|

/-- Python `max(trades, key=pnl_money, default=None)` (first maximum wins). -/
def maxByPnl : List BacktestTrade → Option BacktestTrade
  | [] => none
  | t :: ts => some (ts.foldl (fun b x => if b.pnl_money < x.pnl_money then x else b) t)

/-- Python `min(trades, key=pnl_money, default=None)` (first minimum wins). -/
def minByPnl : List BacktestTrade → Option BacktestTrade
  | [] => none
  | t :: ts => some (ts.foldl (fun b x => if x.pnl_money < b.pnl_money then x else b) t)

/-- `BacktestEngine._build_result`. -/
def _build_result (cfg : Config) (s : EngineState) : BacktestResult :=
  let win_trades := (s.trades.filter (fun t => decide (0 < t.pnl_money))).length
  let loss_trades := (s.trades.filter (fun t => decide (t.pnl_money < 0))).length
  let total_trades := s.trades.length
  let winrate := if 0 < total_trades then (win_trades : ℚ) / (total_trades : ℚ) * 100 else 0
  let net_pnl_money := s.current_equity - cfg.initial_equity
  let net_pnl_points := (s.trades.map (fun t => t.pnl_points)).sum
  ⟨⟨total_trades, win_trades, loss_trades, winrate, net_pnl_money, net_pnl_points,
    _calculate_max_drawdown s, maxByPnl s.trades, minByPnl s.trades⟩,
   s.equity_curve, s.trades⟩

/-- `BacktestEngine._empty_result`. -/
def _empty_result : BacktestResult :=
  ⟨⟨0, 0, 0, 0, 0, 0, 0, none, none⟩, [], []⟩

/-- The engine state at the very end of `BacktestEngine.run` for
non-empty data: the loop state after the forced close of a still-open
position at the last bar's close and time. -/
def finalState (cfg : Config) (rows : List Row) : EngineState :=
  match rows with
  | [] => initState cfg
  | first :: rest =>
      match (loopState cfg (first :: rest)).position with
      | some _ =>
          _close_position cfg (loopState cfg (first :: rest))
            ((first :: rest).getLastD first).close
            ((first :: rest).getLastD first).time ExitReason.END_OF_BACKTEST
      | none => loopState cfg (first :: rest)

/-- `BacktestEngine.run` on an already-enriched bar list: empty-data
guard, state reset and seed equity point, per-bar loop, forced close of
a still-open position at the last bar, result building. -/
def run (cfg : Config) (rows : List Row) : BacktestResult :=
  match rows with
  | [] => _empty_result
  | first :: rest => _build_result cfg (finalState cfg (first :: rest))

/-! ### Indicator pipeline (`_calculate_rsi`, `calculate_indicators`)

`_calculate_rsi` in pandas terms:
`delta = prices.diff()` (NaN at index 0);
`gain = delta.where(delta > 0, 0).rolling(period).mean()` — note that
`where` replaces the leading NaN by 0 because `NaN > 0` is False;
`loss = (-delta.where(delta < 0, 0)).rolling(period).mean()`;
`rs = gain / loss`; `rsi = 100 - 100 / (1 + rs)`.
The rolling mean is NaN until the window is full (`min_periods` defaults
to the window size); the gain/loss series themselves contain no NaN.
The float special cases of `gain / loss`: `g / 0 = +inf` for `g > 0`
(so `rsi = 100 - 100/(1 + inf) = 100`) and `0 / 0 = NaN` (so `rsi` is
NaN); both are written out below. -/

/-- `prices.diff()` at index `i` (NaN at index 0). -/
def diffAt (prices : List ℚ) (i : Nat) : Option ℚ :=
  if i = 0 then none else some (prices.getD i 0 - prices.getD (i - 1) 0)

/-- `delta.where(delta > 0, 0)` at index `i`; the index-0 NaN becomes 0. -/
def gainAt (prices : List ℚ) (i : Nat) : ℚ :=
  match diffAt prices i with
  | none => 0
  | some d => if 0 < d then d else 0

/-- `(-delta).where(delta < 0, 0)` at index `i`. -/
def lossAt (prices : List ℚ) (i : Nat) : ℚ :=
  match diffAt prices i with
  | none => 0
  | some d => if d < 0 then -d else 0

/-- Sum of `f` over the window `start .. start+len-1`. -/
def windowSum (f : Nat → ℚ) (start len : Nat) : ℚ :=
  ((List.range len).map (fun j => f (start + j))).sum

/-- `rolling(window=period).mean()` of the gain series at index `i`. -/
def rollingMeanGain (prices : List ℚ) (period i : Nat) : Option ℚ :=
  if i + 1 < period then none
  else some (windowSum (gainAt prices) (i + 1 - period) period / (period : ℚ))

/-- `rolling(window=period).mean()` of the loss series at index `i`. -/
def rollingMeanLoss (prices : List ℚ) (period i : Nat) : Option ℚ :=
  if i + 1 < period then none
  else some (windowSum (lossAt prices) (i + 1 - period) period / (period : ℚ))

/-- `BacktestEngine._calculate_rsi` at output index `i`. -/
def rsiAt (prices : List ℚ) (period i : Nat) : Option ℚ :=
  match rollingMeanGain prices period i, rollingMeanLoss prices period i with
  | some g, some l =>
      if l = 0 then
        if g = 0 then none
        else some 100
      else some (100 - 100 / (1 + g / l))
  | _, _ => none

/-- `series.ewm(span, adjust=False).mean()` continuation: given the
previous EMA value, produce the EMA values of the remaining series. -/
def emaFrom (alpha prev : ℚ) : List ℚ → List ℚ
  | [] => []
  | x :: xs =>
      let e := alpha * x + (1 - alpha) * prev
      e :: emaFrom alpha e xs

/-- `df['Close'].ewm(span=trend_ema, adjust=False).mean()`: seeded by the
first value, smoothing factor `2 / (span + 1)`. -/
def emaTrendSeries (span : Nat) (closes : List ℚ) : List ℚ :=
  match closes with
  | [] => []
  | x :: xs => x :: emaFrom (2 / ((span : ℚ) + 1)) x xs

/-- `BacktestEngine.calculate_indicators` restricted to the columns the
loop consumes, producing the enriched rows the loop iterates over; bar
timestamps are the row indices. -/
def calculate_indicators (rsi_period trend_ema : Nat) (closes : List ℚ) : List Row :=
  let ema := emaTrendSeries trend_ema closes
  (List.range closes.length).map
    (fun i => ⟨closes.getD i 0, rsiAt closes rsi_period i, some (ema.getD i 0), i⟩)

/-- `BacktestEngine.run` composed with the indicator computation: the
full pipeline from a historical close series to the backtest result. -/
def full_run (cfg : Config) (rsi_period trend_ema : Nat) (closes : List ℚ) : BacktestResult :=
  run cfg (calculate_indicators rsi_period trend_ema closes)

/-! ### Accounting invariants of the engine state -/

/-- The signed P&L in points for a direction, as `_close_position`
computes it. -/
def pnlPointsOf (d : Direction) (entry_price exit_price : ℚ) : ℚ :=
  match d with
  | Direction.LONG => exit_price - entry_price
  | Direction.SHORT => entry_price - exit_price

/-- Total money P&L of a trade list. -/
def sumPnl (ts : List BacktestTrade) : ℚ := (ts.map (fun t => t.pnl_money)).sum

/-- The equity value immediately after each trade close, starting from
`e`. -/
def equitiesAfter (e : ℚ) : List BacktestTrade → List ℚ
  | [] => []
  | t :: ts => (e + t.pnl_money) :: equitiesAfter (e + t.pnl_money) ts

/-- Running maximum of a list seeded with `x`. -/
def runningMax (x : ℚ) : List ℚ → ℚ
  | [] => x
  | y :: ys => runningMax (max x y) ys

/-- Running minimum of a list seeded with `x`. -/
def runningMin (x : ℚ) : List ℚ → ℚ
  | [] => x
  | y :: ys => runningMin (min x y) ys

/-- The drawdown formula in the spec's own words: the absolute difference
of the lowest and highest equity ever seen, divided by the highest, times
100, where the extrema run over the initial equity together with the
equity immediately after each trade close. -/
def spec_max_drawdown_pct (initial : ℚ) (trades : List BacktestTrade) : ℚ :=
  |runningMin initial (equitiesAfter initial trades) -
      runningMax initial (equitiesAfter initial trades)| /
    runningMax initial (equitiesAfter initial trades) * 100

/-- The engine-state accounting invariant: the running equity is the
initial equity plus all realized P&L, the tracked extrema are the running
max/min over the post-close equity values, and every recorded trade's
P&L fields satisfy the sign and lot-size equations. -/
def StateInv (cfg : Config) (s : EngineState) : Prop :=
  s.current_equity = cfg.initial_equity + sumPnl s.trades ∧
  s.highest_equity = runningMax cfg.initial_equity (equitiesAfter cfg.initial_equity s.trades) ∧
  s.lowest_equity = runningMin cfg.initial_equity (equitiesAfter cfg.initial_equity s.trades) ∧
  ∀ t ∈ s.trades,
    t.pnl_points = pnlPointsOf t.direction t.entry_price t.exit_price ∧
    t.pnl_money = t.pnl_points * cfg.lot_size

theorem sumPnl_nil : sumPnl [] = 0 := rfl

theorem sumPnl_append (l : List BacktestTrade) (t : BacktestTrade) :
    sumPnl (l ++ [t]) = sumPnl l + t.pnl_money := by
  simp [sumPnl]

theorem equitiesAfter_append (t : BacktestTrade) :
    ∀ (l : List BacktestTrade) (e : ℚ),
      equitiesAfter e (l ++ [t]) = equitiesAfter e l ++ [e + sumPnl l + t.pnl_money] := by
  intro l
  induction l with
  | nil => intro e; simp [equitiesAfter, sumPnl]
  | cons x xs ih =>
      intro e
      have hs : e + sumPnl (x :: xs) + t.pnl_money =
          e + x.pnl_money + sumPnl xs + t.pnl_money := by
        simp [sumPnl]; ring
      calc equitiesAfter e ((x :: xs) ++ [t])
          = (e + x.pnl_money) :: equitiesAfter (e + x.pnl_money) (xs ++ [t]) := rfl
        _ = (e + x.pnl_money) ::
              (equitiesAfter (e + x.pnl_money) xs ++ [e + x.pnl_money + sumPnl xs + t.pnl_money]) := by
            rw [ih]
        _ = equitiesAfter e (x :: xs) ++ [e + sumPnl (x :: xs) + t.pnl_money] := by
            rw [hs]
            simp [equitiesAfter]

theorem runningMax_append (y : ℚ) :
    ∀ (l : List ℚ) (x : ℚ), runningMax x (l ++ [y]) = max (runningMax x l) y := by
  intro l
  induction l with
  | nil => intro x; simp [runningMax]
  | cons z zs ih =>
      intro x
      simp only [List.cons_append, runningMax]
      exact ih (max x z)

theorem runningMin_append (y : ℚ) :
    ∀ (l : List ℚ) (x : ℚ), runningMin x (l ++ [y]) = min (runningMin x l) y := by
  intro l
  induction l with
  | nil => intro x; simp [runningMin]
  | cons z zs ih =>
      intro x
      simp only [List.cons_append, runningMin]
      exact ih (min x z)

theorem le_runningMax : ∀ (l : List ℚ) (x : ℚ), x ≤ runningMax x l := by
  intro l
  induction l with
  | nil => intro x; exact le_refl x
  | cons y ys ih => intro x; exact le_trans (le_max_left x y) (ih (max x y))

theorem runningMin_le : ∀ (l : List ℚ) (x : ℚ), runningMin x l ≤ x := by
  intro l
  induction l with
  | nil => intro x; exact le_refl x
  | cons y ys ih => intro x; exact le_trans (ih (min x y)) (min_le_left x y)

/-! ### Invariant preservation through the loop -/

theorem _close_position_inv (cfg : Config) (s : EngineState) (price : ℚ) (time : Nat)
    (reason : ExitReason) (h : StateInv cfg s) :
    StateInv cfg (_close_position cfg s price time reason) := by
  cases hp : s.position with
  | none => simpa [_close_position, hp] using h
  | some pos =>
      obtain ⟨h1, h2, h3, h4⟩ := h
      refine ⟨?_, ?_, ?_, ?_⟩
      · simp only [_close_position, hp]
        rw [sumPnl_append, h1]
        ring
      · simp only [_close_position, hp]
        rw [equitiesAfter_append, runningMax_append, h2, h1]
      · simp only [_close_position, hp]
        rw [equitiesAfter_append, runningMin_append, h3, h1]
      · simp only [_close_position, hp]
        intro t ht
        rw [List.mem_append] at ht
        rcases ht with ht | ht
        · exact h4 t ht
        · simp only [List.mem_singleton] at ht
          subst ht
          cases pos.direction <;> simp [pnlPointsOf]

/-- `entryPhase` touches only the position. -/
theorem entryPhase_frame (s : EngineState) (row : Row) (prev_row : Option Row) :
    (entryPhase s row prev_row).trades = s.trades ∧
    (entryPhase s row prev_row).equity_curve = s.equity_curve ∧
    (entryPhase s row prev_row).current_equity = s.current_equity ∧
    (entryPhase s row prev_row).highest_equity = s.highest_equity ∧
    (entryPhase s row prev_row).lowest_equity = s.lowest_equity := by
  unfold entryPhase _open_position
  split
  · split
    · exact ⟨rfl, rfl, rfl, rfl, rfl⟩
    · split
      · exact ⟨rfl, rfl, rfl, rfl, rfl⟩
      · exact ⟨rfl, rfl, rfl, rfl, rfl⟩
  · exact ⟨rfl, rfl, rfl, rfl, rfl⟩

theorem entryPhase_inv (cfg : Config) (s : EngineState) (row : Row) (prev_row : Option Row)
    (h : StateInv cfg s) : StateInv cfg (entryPhase s row prev_row) := by
  obtain ⟨f1, _, f3, f4, f5⟩ := entryPhase_frame s row prev_row
  obtain ⟨h1, h2, h3, h4⟩ := h
  exact ⟨by rw [f3, f1]; exact h1, by rw [f4, f1]; exact h2,
    by rw [f5, f1]; exact h3, by rw [f1]; exact h4⟩

/-- The state invariant only mentions the trades, equity and extrema, so
it is insensitive to a position overwrite. -/
theorem StateInv_set_position (cfg : Config) (s : EngineState) (p : Option Position)
    (h : StateInv cfg s) : StateInv cfg { s with position := p } := h

theorem exitPhase_inv (cfg : Config) (s : EngineState) (row : Row)
    (h : StateInv cfg s) : StateInv cfg (exitPhase cfg s row) := by
  unfold exitPhase
  split
  · split
    · exact _close_position_inv cfg _ _ _ _ (StateInv_set_position cfg s _ h)
    · exact StateInv_set_position cfg s _ h
  · exact h

theorem stepBar_inv (cfg : Config) (s : EngineState) (row : Row) (prev_row : Option Row)
    (h : StateInv cfg s) : StateInv cfg (stepBar cfg s row prev_row) := by
  have h2 := entryPhase_inv cfg _ row prev_row (exitPhase_inv cfg s row h)
  exact h2

/-- Any property preserved by `stepBar` survives the whole loop fold. -/
theorem foldl_stepBar_inv (cfg : Config) (P : EngineState → Prop)
    (hP : ∀ s row prev, P s → P (stepBar cfg s row prev)) :
    ∀ (rows : List Row) (s0 : EngineState) (prev0 : Option Row),
      P s0 → P ((rows.foldl (stepFold cfg) (s0, prev0)).1) := by
  intro rows
  induction rows with
  | nil => intro s0 prev0 h; exact h
  | cons r rest ih =>
      intro s0 prev0 h
      rw [List.foldl_cons]
      exact ih (stepBar cfg s0 r prev0) (some r) (hP s0 r prev0 h)

/-- Unfolding equation of `finalState` on non-empty data. -/
theorem finalState_cons_eq (cfg : Config) (first : Row) (rest : List Row) :
    finalState cfg (first :: rest) =
      match (loopState cfg (first :: rest)).position with
      | some _ =>
          _close_position cfg (loopState cfg (first :: rest))
            ((first :: rest).getLastD first).close
            ((first :: rest).getLastD first).time ExitReason.END_OF_BACKTEST
      | none => loopState cfg (first :: rest) := rfl

theorem initState_inv (cfg : Config) : StateInv cfg (initState cfg) := by
  refine ⟨?_, rfl, rfl, ?_⟩
  · simp [initState, sumPnl]
  · intro t ht
    simp [initState] at ht

theorem loopState_inv (cfg : Config) (rows : List Row) : StateInv cfg (loopState cfg rows) := by
  cases rows with
  | nil => exact initState_inv cfg
  | cons first rest =>
      refine foldl_stepBar_inv cfg (StateInv cfg)
        (fun s row prev h => stepBar_inv cfg s row prev h) (first :: rest) _ none ?_
      have h := initState_inv cfg
      exact ⟨h.1, h.2.1, h.2.2.1, h.2.2.2⟩

theorem finalState_inv (cfg : Config) (rows : List Row) : StateInv cfg (finalState cfg rows) := by
  cases rows with
  | nil => exact initState_inv cfg
  | cons first rest =>
      rw [finalState_cons_eq]
      cases hp : (loopState cfg (first :: rest)).position with
      | none => exact loopState_inv cfg (first :: rest)
      | some pos => exact _close_position_inv cfg _ _ _ _ (loopState_inv cfg (first :: rest))

/-- Unfolding equation of `loopState` on non-empty data. -/
theorem loopState_cons_eq (cfg : Config) (first : Row) (rest : List Row) :
    loopState cfg (first :: rest) =
      ((first :: rest).foldl (stepFold cfg)
        ({ initState cfg with equity_curve := [(first.time, cfg.initial_equity)] }, none)).1 := rfl

/-- Closing a position leaves `current_equity - sumPnl trades` unchanged. -/
theorem _close_position_equity_diff (cfg : Config) (s : EngineState) (price : ℚ) (time : Nat)
    (reason : ExitReason) :
    (_close_position cfg s price time reason).current_equity -
      sumPnl (_close_position cfg s price time reason).trades =
    s.current_equity - sumPnl s.trades := by
  cases hp : s.position with
  | none => rw [_close_position]; rw [hp]
  | some pos =>
      simp only [_close_position, hp, sumPnl_append]
      ring

/-- Closing a position does not touch the equity curve. -/
theorem _close_position_curve (cfg : Config) (s : EngineState) (price : ℚ) (time : Nat)
    (reason : ExitReason) :
    (_close_position cfg s price time reason).equity_curve = s.equity_curve := by
  cases hp : s.position with
  | none => rw [_close_position]; rw [hp]
  | some pos => simp only [_close_position, hp]

/-- One bar step leaves `current_equity - sumPnl trades` unchanged:
equity moves exactly by the realized P&L of the trades recorded on that
bar. -/
theorem stepBar_equity_diff (cfg : Config) (s : EngineState) (row : Row)
    (prev_row : Option Row) :
    (stepBar cfg s row prev_row).current_equity -
      sumPnl (stepBar cfg s row prev_row).trades =
    s.current_equity - sumPnl s.trades := by
  have hentry := entryPhase_frame (exitPhase cfg s row) row prev_row
  have hc : (stepBar cfg s row prev_row).current_equity =
      (exitPhase cfg s row).current_equity := hentry.2.2.1
  have ht : (stepBar cfg s row prev_row).trades = (exitPhase cfg s row).trades := hentry.1
  rw [hc, ht]
  unfold exitPhase
  split
  · split
    · exact _close_position_equity_diff cfg _ _ _ _
    · rfl
  · rfl

/-- C9: a run over an empty candle set yields the explicit empty result:
no trades, empty equity curve, and an all-zero summary with no best or
worst trade. -/
theorem C9_empty_result (cfg : Config) :
    (run cfg []).trades = [] ∧
    (run cfg []).equity_curve = [] ∧
    (run cfg []).summary.total_trades = 0 ∧
    (run cfg []).summary.win_trades = 0 ∧
    (run cfg []).summary.loss_trades = 0 ∧
    (run cfg []).summary.winrate = 0 ∧
    (run cfg []).summary.net_pnl_money = 0 ∧
    (run cfg []).summary.net_pnl_points = 0 ∧
    (run cfg []).summary.max_drawdown_pct = 0 ∧
    (run cfg []).summary.best_trade = none ∧
    (run cfg []).summary.worst_trade = none :=
  ⟨rfl, rfl, rfl, rfl, rfl, rfl, rfl, rfl, rfl, rfl, rfl⟩

/-- C7: every recorded trade has `pnl_points = exit − entry` for Long and
`entry − exit` for Short and `pnl_money = pnl_points × lot_size` exactly;
the running equity tracks the initial equity plus realized P&L through
every bar step, and a bar that records no trade leaves the equity
unchanged (no mark-to-market of open positions). -/
theorem C7_trade_pnl_equity (cfg : Config) (rows : List Row) (t : BacktestTrade)
    (s : EngineState) (row : Row) (prev_row : Option Row) :
    (t ∈ (run cfg rows).trades →
      t.pnl_points = pnlPointsOf t.direction t.entry_price t.exit_price ∧
      t.pnl_money = t.pnl_points * cfg.lot_size) ∧
    (s.current_equity = cfg.initial_equity + sumPnl s.trades →
      (stepBar cfg s row prev_row).current_equity =
        cfg.initial_equity + sumPnl (stepBar cfg s row prev_row).trades) ∧
    ((stepBar cfg s row prev_row).trades = s.trades →
      (stepBar cfg s row prev_row).current_equity = s.current_equity) := by
  refine ⟨?_, ?_, ?_⟩
  · intro ht
    cases rows with
    | nil => simp [run, _empty_result] at ht
    | cons first rest =>
        have htr : (run cfg (first :: rest)).trades =
            (finalState cfg (first :: rest)).trades := rfl
        rw [htr] at ht
        exact (finalState_inv cfg (first :: rest)).2.2.2 t ht
  · intro h
    have hd := stepBar_equity_diff cfg s row prev_row
    linarith [hd]
  · intro h
    have hd := stepBar_equity_diff cfg s row prev_row
    rw [h] at hd
    linarith [hd]

/-- Witness for C7: a concrete run's recorded trade satisfies the P&L
equations, and a concrete no-trade bar leaves the equity untouched. -/
theorem C7_trade_pnl_equity_witness :
    ((⟨Direction.LONG, 1, 100, 1, 100, 0, 0, ExitReason.END_OF_BACKTEST⟩ : BacktestTrade).pnl_points =
        pnlPointsOf Direction.LONG 100 100 ∧
      (⟨Direction.LONG, 1, 100, 1, 100, 0, 0, ExitReason.END_OF_BACKTEST⟩ : BacktestTrade).pnl_money =
        (⟨Direction.LONG, 1, 100, 1, 100, 0, 0, ExitReason.END_OF_BACKTEST⟩ : BacktestTrade).pnl_points * (1 : ℚ)) ∧
    (stepBar ⟨10, 10, 1, 500⟩ ⟨[], [(0, 500)], 500, none, 500, 500⟩ ⟨100, none, none, 0⟩ none).current_equity =
      (500 : ℚ) + sumPnl (stepBar ⟨10, 10, 1, 500⟩ ⟨[], [(0, 500)], 500, none, 500, 500⟩ ⟨100, none, none, 0⟩ none).trades ∧
    (stepBar ⟨10, 10, 1, 500⟩ ⟨[], [(0, 500)], 500, none, 500, 500⟩ ⟨100, none, none, 0⟩ none).current_equity = 500 := by
  refine ⟨?_, ?_, ?_⟩
  · exact (C7_trade_pnl_equity ⟨10, 10, 1, 500⟩
      [⟨100, some 30, none, 0⟩, ⟨100, some 50, none, 1⟩]
      ⟨Direction.LONG, 1, 100, 1, 100, 0, 0, ExitReason.END_OF_BACKTEST⟩
      ⟨[], [(0, 500)], 500, none, 500, 500⟩ ⟨100, none, none, 0⟩ none).1 (by
        norm_num [run, finalState, loopState, List.foldl, stepFold, stepBar, exitPhase,
          entryPhase, check_buy_signal, check_sell_signal, check_exit_conditions,
          _open_position, _close_position, _build_result, _calculate_max_drawdown,
          initState, maxByPnl, minByPnl, sumPnl])
  · exact (C7_trade_pnl_equity ⟨10, 10, 1, 500⟩ [] default
      ⟨[], [(0, 500)], 500, none, 500, 500⟩ ⟨100, none, none, 0⟩ none).2.1 (by
        norm_num [sumPnl])
  · exact (C7_trade_pnl_equity ⟨10, 10, 1, 500⟩ [] default
      ⟨[], [(0, 500)], 500, none, 500, 500⟩ ⟨100, none, none, 0⟩ none).2.2 (by
        norm_num [stepBar, exitPhase, entryPhase, check_buy_signal, check_sell_signal])

theorem loopState_curve_ne (cfg : Config) (first : Row) (rest : List Row) :
    (loopState cfg (first :: rest)).equity_curve ≠ [] := by
  rw [loopState_cons_eq]
  refine foldl_stepBar_inv cfg (fun s => s.equity_curve ≠ []) ?_ (first :: rest) _ none ?_
  · intro s row prev _
    simp [stepBar]
  · simp

theorem finalState_curve_ne (cfg : Config) (first : Row) (rest : List Row) :
    (finalState cfg (first :: rest)).equity_curve ≠ [] := by
  rw [finalState_cons_eq]
  cases hp : (loopState cfg (first :: rest)).position with
  | none => exact loopState_curve_ne cfg first rest
  | some pos => rw [_close_position_curve]; exact loopState_curve_ne cfg first rest

/-- A parameter set for the drawdown boundary scenario of the spec. -/
def cfg1818 : Config := ⟨10, 1000000, 1, 100000⟩

/-- Enriched bars driving four trades whose post-close equity path is
`100000, 100000, 95000, 110000, 90000` from an initial 100000. -/
def rows1818 : List Row :=
  [⟨50000, some 30, none, 0⟩, ⟨50000, some 50, some 0, 1⟩, ⟨50000, some 10, some 100000, 2⟩,
   ⟨60000, some 50, none, 3⟩, ⟨55000, some 10, some 100000, 4⟩,
   ⟨40000, some 50, none, 5⟩, ⟨55000, some 60, some 100000, 6⟩,
   ⟨90000, some 41, none, 7⟩, ⟨110000, some 45, some 100000, 8⟩]

/-- A degenerate parameter set with negative starting capital. -/
def cfgNeg : Config := ⟨10, 1, 1, -5⟩

/-- Bars driving one losing trade from the negative starting capital. -/
def rowsNeg : List Row :=
  [⟨100, some 30, none, 0⟩, ⟨100, some 50, none, 1⟩, ⟨95, some 50, some 1000, 2⟩]

/-- C8 (amended): for every run with positive initial equity,
`max_drawdown_pct` equals `|lowest − highest| / highest × 100` over the
running extrema of the initial equity and the post-close equities; and
the equity path `100000, 100000, 95000, 110000, 90000` yields
`200/11 ≈ 18.18`.  (When the highest tracked equity is ≤ 0 the code
returns 0 instead — see the counterexample.) -/
theorem C8_max_drawdown (cfg : Config) (rows : List Row) (hinit : 0 < cfg.initial_equity) :
    (run cfg rows).summary.max_drawdown_pct =
      spec_max_drawdown_pct cfg.initial_equity ((run cfg rows).trades) ∧
    (run cfg1818 rows1818).summary.max_drawdown_pct = 200 / 11 := by
  constructor
  · cases rows with
    | nil =>
        show (0 : ℚ) = spec_max_drawdown_pct cfg.initial_equity []
        simp [spec_max_drawdown_pct, equitiesAfter, runningMax, runningMin]
    | cons first rest =>
        have hinv := finalState_inv cfg (first :: rest)
        have hcurve := finalState_curve_ne cfg first rest
        have hhigh : 0 < (finalState cfg (first :: rest)).highest_equity := by
          rw [hinv.2.1]
          exact lt_of_lt_of_le hinit (le_runningMax _ _)
        have hLHS : (run cfg (first :: rest)).summary.max_drawdown_pct =
            _calculate_max_drawdown (finalState cfg (first :: rest)) := rfl
        have htr : (run cfg (first :: rest)).trades =
            (finalState cfg (first :: rest)).trades := rfl
        rw [hLHS, htr]
        unfold _calculate_max_drawdown
        rw [if_neg (by push_neg; exact ⟨hcurve, by linarith⟩)]
        unfold spec_max_drawdown_pct
        rw [← hinv.2.1, ← hinv.2.2.1]
        rw [abs_mul, abs_div, abs_of_pos hhigh]
        norm_num
  · norm_num [cfg1818, rows1818, run, finalState, loopState, List.foldl, stepFold, stepBar,
      exitPhase, entryPhase, check_buy_signal, check_sell_signal, check_exit_conditions,
      _open_position, _close_position, _build_result, _calculate_max_drawdown,
      initState, maxByPnl, minByPnl, sumPnl]
    rw [if_neg (by simp)]
    rw [abs_of_nonneg (by norm_num)]

/-- Witness for C8 at the spec's drawdown boundary scenario. -/
theorem C8_max_drawdown_witness :
    (run cfg1818 rows1818).summary.max_drawdown_pct =
      spec_max_drawdown_pct cfg1818.initial_equity ((run cfg1818 rows1818).trades) ∧
    (run cfg1818 rows1818).summary.max_drawdown_pct = 200 / 11 :=
  C8_max_drawdown cfg1818 rows1818 (by norm_num [cfg1818])

/-- Counterexample for C8 as frozen: on a run whose equity stays ≤ 0
(negative initial capital, one losing trade), the code's guard returns 0
while the claimed formula gives −100. -/
theorem C8_counterexample :
    (run cfgNeg rowsNeg).summary.max_drawdown_pct ≠
      spec_max_drawdown_pct cfgNeg.initial_equity ((run cfgNeg rowsNeg).trades) := by
  norm_num [cfgNeg, rowsNeg, run, finalState, loopState, List.foldl, stepFold, stepBar,
    exitPhase, entryPhase, check_buy_signal, check_sell_signal, check_exit_conditions,
    _open_position, _close_position, _build_result, _calculate_max_drawdown,
    initState, maxByPnl, minByPnl, sumPnl, spec_max_drawdown_pct, equitiesAfter,
    runningMax, runningMin]

/-- What closing an open position does to the accounting state: one trade
is appended carrying the realized P&L, the equity moves by exactly that
trade's `pnl_money`, and the equity curve is untouched. -/
theorem _close_position_spec (cfg : Config) (s : EngineState) (price : ℚ) (time : Nat)
    (reason : ExitReason) (pos : Position) (hp : s.position = some pos) :
    ∃ tEnd : BacktestTrade,
      tEnd.reason = reason ∧
      (_close_position cfg s price time reason).trades = s.trades ++ [tEnd] ∧
      (_close_position cfg s price time reason).current_equity =
        s.current_equity + tEnd.pnl_money ∧
      (_close_position cfg s price time reason).equity_curve = s.equity_curve := by
  refine ⟨⟨pos.direction, pos.entry_time, pos.entry_price, time, price,
    match pos.direction with
    | Direction.LONG => price - pos.entry_price
    | Direction.SHORT => pos.entry_price - price,
    (match pos.direction with
    | Direction.LONG => price - pos.entry_price
    | Direction.SHORT => pos.entry_price - price) * cfg.lot_size, reason⟩,
    rfl, ?_, ?_, ?_⟩ <;> simp only [_close_position, hp]

/-- After the loop the equity curve is non-empty and its last point holds
the running equity of the loop state. -/
theorem loopState_last_curve (cfg : Config) (first : Row) (rest : List Row) :
    (loopState cfg (first :: rest)).equity_curve ≠ [] ∧
    ((loopState cfg (first :: rest)).equity_curve.getLastD (0, 0)).2 =
      (loopState cfg (first :: rest)).current_equity := by
  rw [loopState_cons_eq]
  refine foldl_stepBar_inv cfg
    (fun s => s.equity_curve ≠ [] ∧ (s.equity_curve.getLastD (0, 0)).2 = s.current_equity)
    ?_ (first :: rest) _ none ?_
  · intro s row prev _
    constructor
    · simp [stepBar]
    · have h1 : (stepBar cfg s row prev).equity_curve =
          (entryPhase (exitPhase cfg s row) row prev).equity_curve ++
            [(row.time, (entryPhase (exitPhase cfg s row) row prev).current_equity)] := rfl
      have h2 : (stepBar cfg s row prev).current_equity =
          (entryPhase (exitPhase cfg s row) row prev).current_equity := rfl
      rw [h1, h2, List.getLastD_concat]
  · exact ⟨by simp, rfl⟩

/-- C10: when a position is still open after the last bar, the forced
end-of-simulation close adjusts the equity only after the final equity
point was appended: the last equity-curve value is the initial equity
plus the P&L of all trades except the forced one, while the summary's
`net_pnl_money` includes it, so the two differ by exactly the forced
trade's `pnl_money`. -/
theorem C10_forced_close_accounting (cfg : Config) (rows : List Row)
    (hne : rows ≠ [])
    (hopen : (loopState cfg rows).position.isSome = true) :
    (run cfg rows).trades ≠ [] ∧
    ((run cfg rows).trades.getLastD default).reason = ExitReason.END_OF_BACKTEST ∧
    ((run cfg rows).equity_curve.getLastD (0, 0)).2 =
      cfg.initial_equity + sumPnl ((run cfg rows).trades.dropLast) ∧
    (run cfg rows).summary.net_pnl_money = sumPnl ((run cfg rows).trades) ∧
    ((run cfg rows).equity_curve.getLastD (0, 0)).2 =
      cfg.initial_equity + (run cfg rows).summary.net_pnl_money -
        ((run cfg rows).trades.getLastD default).pnl_money := by
  cases rows with
  | nil => exact absurd rfl hne
  | cons first rest =>
      obtain ⟨pos, hp⟩ := Option.isSome_iff_exists.mp hopen
      have hfin : finalState cfg (first :: rest) =
          _close_position cfg (loopState cfg (first :: rest))
            ((first :: rest).getLastD first).close
            ((first :: rest).getLastD first).time ExitReason.END_OF_BACKTEST := by
        rw [finalState_cons_eq, hp]
      obtain ⟨tEnd, hreason, htr, heq, hcv⟩ :=
        _close_position_spec cfg (loopState cfg (first :: rest))
          ((first :: rest).getLastD first).close
          ((first :: rest).getLastD first).time ExitReason.END_OF_BACKTEST pos hp
      rw [← hfin] at htr heq hcv
      have hloopEq := (loopState_inv cfg (first :: rest)).1
      have hlast := loopState_last_curve cfg first rest
      have hrtr : (run cfg (first :: rest)).trades = (finalState cfg (first :: rest)).trades := rfl
      have hrcv : (run cfg (first :: rest)).equity_curve =
          (finalState cfg (first :: rest)).equity_curve := rfl
      have hrnet : (run cfg (first :: rest)).summary.net_pnl_money =
          (finalState cfg (first :: rest)).current_equity - cfg.initial_equity := rfl
      refine ⟨?_, ?_, ?_, ?_, ?_⟩
      · rw [hrtr, htr]; simp
      · rw [hrtr, htr, List.getLastD_concat, hreason]
      · rw [hrcv, hcv, hlast.2, hrtr, htr, List.dropLast_concat]
        exact hloopEq
      · rw [hrnet, hrtr, htr, heq, hloopEq, sumPnl_append]
        ring
      · rw [hrcv, hcv, hlast.2, hrnet, heq, hloopEq, hrtr, htr, List.getLastD_concat]
        ring

/-- Parameters for the C10 witness scenario. -/
def cfgC10 : Config := ⟨10, 10, 1, 500⟩

/-- Two bars whose second bar opens a Long position that is still open
when the data ends. -/
def rowsC10 : List Row := [⟨100, some 30, none, 0⟩, ⟨100, some 50, none, 1⟩]

/-- Witness for C10: the two-bar run that ends with an open position. -/
theorem C10_forced_close_accounting_witness :
    (run cfgC10 rowsC10).trades ≠ [] ∧
    ((run cfgC10 rowsC10).trades.getLastD default).reason = ExitReason.END_OF_BACKTEST ∧
    ((run cfgC10 rowsC10).equity_curve.getLastD (0, 0)).2 =
      cfgC10.initial_equity + sumPnl ((run cfgC10 rowsC10).trades.dropLast) ∧
    (run cfgC10 rowsC10).summary.net_pnl_money = sumPnl ((run cfgC10 rowsC10).trades) ∧
    ((run cfgC10 rowsC10).equity_curve.getLastD (0, 0)).2 =
      cfgC10.initial_equity + (run cfgC10 rowsC10).summary.net_pnl_money -
        ((run cfgC10 rowsC10).trades.getLastD default).pnl_money :=
  C10_forced_close_accounting cfgC10 rowsC10 (by simp [rowsC10])
    (by norm_num [cfgC10, rowsC10, loopState, List.foldl, stepFold, stepBar, exitPhase,
      entryPhase, check_buy_signal, check_sell_signal, check_exit_conditions,
      _open_position, _close_position, initState])

/-! ### C1: same-bar exit then re-entry -/

/-- C1 (amended): exit and entry evaluation are not mutually exclusive
within one bar — when a bar's exit check closes the position, the loop
records the trade and evaluates the entry conditions on that same bar
with the position cleared: a new Long position opens at that bar's close
and time when the Long entry condition holds (checked first), a new
Short position opens when the Long condition fails and the Short entry
condition holds, and the state stays flat only when both fail. -/
theorem C1_same_bar_reentry (cfg : Config) (s : EngineState) (row : Row)
    (prev_row : Option Row) (pos pos2 : Position) (reason : ExitReason)
    (hpos : s.position = some pos)
    (hexit : check_exit_conditions cfg pos row = (pos2, some reason)) :
    (check_buy_signal none row prev_row = true →
      (stepBar cfg s row prev_row).position =
        some ⟨Direction.LONG, row.close, row.time, row.close, row.close⟩) ∧
    (check_buy_signal none row prev_row = false →
      check_sell_signal none row prev_row = true →
      (stepBar cfg s row prev_row).position =
        some ⟨Direction.SHORT, row.close, row.time, row.close, row.close⟩) ∧
    (check_buy_signal none row prev_row = false →
      check_sell_signal none row prev_row = false →
      (stepBar cfg s row prev_row).position = none) ∧
    (stepBar cfg s row prev_row).trades.length = s.trades.length + 1 := by
  have hX : exitPhase cfg s row =
      _close_position cfg { s with position := some pos2 } row.close row.time reason := by
    simp only [exitPhase, hpos, hexit]
  have hXpos : (exitPhase cfg s row).position = none := by
    rw [hX]; rfl
  have hXtr : (exitPhase cfg s row).trades.length = s.trades.length + 1 := by
    rw [hX]
    simp [_close_position]
  refine ⟨?_, ?_, ?_, ?_⟩
  · intro hbuy
    show (entryPhase (exitPhase cfg s row) row prev_row).position =
      some ⟨Direction.LONG, row.close, row.time, row.close, row.close⟩
    rw [entryPhase, hXpos, hbuy]
    rfl
  · intro hbuy hsell
    show (entryPhase (exitPhase cfg s row) row prev_row).position =
      some ⟨Direction.SHORT, row.close, row.time, row.close, row.close⟩
    rw [entryPhase, hXpos, hbuy, hsell]
    rfl
  · intro hbuy hsell
    show (entryPhase (exitPhase cfg s row) row prev_row).position = none
    rw [entryPhase, hXpos, hbuy, hsell]
    exact hXpos
  · show (entryPhase (exitPhase cfg s row) row prev_row).trades.length =
      s.trades.length + 1
    rw [(entryPhase_frame (exitPhase cfg s row) row prev_row).1]
    exact hXtr

/-- Parameters for the C1 scenarios: tp 10 points, trailing offset 10,
lot 1, one million initial equity. -/
def cfgC1 : Config := ⟨10, 10, 1, 1000000⟩

/-- A Short position entered at 100 on bar 3. -/
def posC1 : Position := ⟨Direction.SHORT, 100, 3, 100, 100⟩

/-- A Long position entered at 100 on bar 3. -/
def posC1L : Position := ⟨Direction.LONG, 100, 3, 100, 100⟩

/-- Witness for C1 (amended): a bar whose close 110 trips the Short
trailing stop while the RSI crosses up through 40, producing a same-bar
Long re-entry; and a bar whose close 90 trips the Long trailing stop
while the RSI crosses down through 60, producing a same-bar Short
re-entry. -/
theorem C1_same_bar_reentry_witness :
    (stepBar cfgC1 ⟨[], [(0, 1000000)], 1000000, some posC1, 1000000, 1000000⟩
        ⟨110, some 50, some 100, 4⟩ (some ⟨100, some 30, none, 3⟩)).position =
      some ⟨Direction.LONG, (⟨110, some 50, some 100, 4⟩ : Row).close,
        (⟨110, some 50, some 100, 4⟩ : Row).time,
        (⟨110, some 50, some 100, 4⟩ : Row).close, (⟨110, some 50, some 100, 4⟩ : Row).close⟩ ∧
    (stepBar cfgC1 ⟨[], [(0, 1000000)], 1000000, some posC1L, 1000000, 1000000⟩
        ⟨90, some 50, some 1000, 4⟩ (some ⟨95, some 70, none, 3⟩)).position =
      some ⟨Direction.SHORT, (⟨90, some 50, some 1000, 4⟩ : Row).close,
        (⟨90, some 50, some 1000, 4⟩ : Row).time,
        (⟨90, some 50, some 1000, 4⟩ : Row).close, (⟨90, some 50, some 1000, 4⟩ : Row).close⟩ ∧
    (stepBar cfgC1 ⟨[], [(0, 1000000)], 1000000, some posC1, 1000000, 1000000⟩
        ⟨110, some 50, some 100, 4⟩ (some ⟨100, some 30, none, 3⟩)).trades.length =
      (⟨[], [(0, 1000000)], 1000000, some posC1, 1000000, 1000000⟩ : EngineState).trades.length + 1 :=
  ⟨(C1_same_bar_reentry cfgC1 _ _ _ posC1 posC1 ExitReason.TRAIL rfl
      (by norm_num [check_exit_conditions, posC1, cfgC1])).1
      (by norm_num [check_buy_signal]),
   (C1_same_bar_reentry cfgC1 _ _ _ posC1L posC1L ExitReason.TRAIL rfl
      (by norm_num [check_exit_conditions, posC1L, cfgC1])).2.1
      (by norm_num [check_buy_signal])
      (by norm_num [check_sell_signal]),
   (C1_same_bar_reentry cfgC1 _ _ _ posC1 posC1 ExitReason.TRAIL rfl
      (by norm_num [check_exit_conditions, posC1, cfgC1])).2.2.2⟩

/-- The close series of the C1 counterexample. -/
def closesC1 : List ℚ := [100, 110, 109, 100, 110]

/-- Counterexample for C1 as frozen: running the full pipeline
(RSI period 2, trend EMA 3) on `closesC1` produces a trade closed by the
trailing stop on bar 4 and a second trade entered on that same bar 4 —
re-entry on the bar the previous position closed does happen. -/
theorem C1_counterexample :
    (full_run cfgC1 2 3 closesC1).trades.length = 2 ∧
    ((full_run cfgC1 2 3 closesC1).trades.getD 0 default).reason = ExitReason.TRAIL ∧
    ((full_run cfgC1 2 3 closesC1).trades.getD 0 default).exit_time =
      ((full_run cfgC1 2 3 closesC1).trades.getD 1 default).entry_time ∧
    ((full_run cfgC1 2 3 closesC1).trades.getD 1 default).direction = Direction.LONG := by
  norm_num [cfgC1, closesC1, full_run, calculate_indicators, rsiAt, rollingMeanGain,
    rollingMeanLoss, windowSum, gainAt, lossAt, diffAt, emaTrendSeries, emaFrom,
    List.range_succ, run, finalState, loopState, List.foldl, stepFold, stepBar, exitPhase,
    entryPhase, check_buy_signal, check_sell_signal, check_exit_conditions,
    _open_position, _close_position, _build_result, _calculate_max_drawdown,
    initState, maxByPnl, minByPnl, sumPnl]

/-! ### C2: RSI warm-up and bounds -/

theorem gainAt_nonneg (prices : List ℚ) (i : Nat) : 0 ≤ gainAt prices i := by
  unfold gainAt
  cases h : diffAt prices i with
  | none => exact le_refl 0
  | some d =>
      show 0 ≤ (if 0 < d then d else 0)
      by_cases hd : 0 < d
      · rw [if_pos hd]; exact le_of_lt hd
      · rw [if_neg hd]

theorem lossAt_nonneg (prices : List ℚ) (i : Nat) : 0 ≤ lossAt prices i := by
  unfold lossAt
  cases h : diffAt prices i with
  | none => exact le_refl 0
  | some d =>
      show 0 ≤ (if d < 0 then -d else 0)
      by_cases hd : d < 0
      · rw [if_pos hd]; linarith
      · rw [if_neg hd]

theorem windowSum_nonneg (f : Nat → ℚ) (hf : ∀ j, 0 ≤ f j) (start len : Nat) :
    0 ≤ windowSum f start len := by
  unfold windowSum
  apply List.sum_nonneg
  intro x hx
  rw [List.mem_map] at hx
  obtain ⟨j, _, rfl⟩ := hx
  exact hf _

/-- C2 (amended): the RSI of the code is undefined at exactly the first
`period − 1` output positions (pandas `where` turns the leading NaN of
`diff` into a zero gain/loss, so the window is full one bar earlier than
the spec says); from position `period` on (1-indexed) it is undefined
precisely when the window's gains and losses all vanish (flat prices,
the float `0/0`), and every defined value lies in `[0, 100]`. -/
theorem C2_rsi_warmup_bounds (prices : List ℚ) (period i : Nat) (hp : 0 < period) :
    (i + 1 < period → rsiAt prices period i = none) ∧
    (period ≤ i + 1 →
      ((rsiAt prices period i = none ↔
          windowSum (gainAt prices) (i + 1 - period) period = 0 ∧
          windowSum (lossAt prices) (i + 1 - period) period = 0) ∧
        ∀ v, rsiAt prices period i = some v → 0 ≤ v ∧ v ≤ 100)) := by
  constructor
  · intro hlt
    simp [rsiAt, rollingMeanGain, hlt]
  · intro hge
    have hnlt : ¬ (i + 1 < period) := by omega
    have hper : (0 : ℚ) < (period : ℚ) := by exact_mod_cast hp
    have hGnn : 0 ≤ windowSum (gainAt prices) (i + 1 - period) period :=
      windowSum_nonneg _ (gainAt_nonneg prices) _ _
    have hLnn : 0 ≤ windowSum (lossAt prices) (i + 1 - period) period :=
      windowSum_nonneg _ (lossAt_nonneg prices) _ _
    set G := windowSum (gainAt prices) (i + 1 - period) period with hGdef
    set L := windowSum (lossAt prices) (i + 1 - period) period with hLdef
    have hrsi : rsiAt prices period i =
        (if L / (period : ℚ) = 0 then
          (if G / (period : ℚ) = 0 then none else some 100)
        else some (100 - 100 / (1 + (G / (period : ℚ)) / (L / (period : ℚ))))) := by
      simp [rsiAt, rollingMeanGain, rollingMeanLoss, hnlt]
    have hGz : (G / (period : ℚ) = 0) ↔ G = 0 := by
      rw [div_eq_zero_iff]
      simp [ne_of_gt hper]
    have hLz : (L / (period : ℚ) = 0) ↔ L = 0 := by
      rw [div_eq_zero_iff]
      simp [ne_of_gt hper]
    constructor
    · rw [hrsi]
      by_cases hL0 : L = 0
      · by_cases hG0 : G = 0
        · simp [hLz, hGz, hL0, hG0]
        · simp [hLz, hGz, hL0, hG0]
      · simp [hLz, hL0]
    · intro v hv
      rw [hrsi] at hv
      by_cases hL0 : L = 0
      · by_cases hG0 : G = 0
        · rw [if_pos (hLz.mpr hL0), if_pos (hGz.mpr hG0)] at hv
          exact absurd hv (by simp)
        · rw [if_pos (hLz.mpr hL0), if_neg (fun h => hG0 (hGz.mp h))] at hv
          have : v = 100 := by simpa using hv.symm
          rw [this]
          norm_num
      · rw [if_neg (fun h => hL0 (hLz.mp h))] at hv
        have hveq : v = 100 - 100 / (1 + (G / (period : ℚ)) / (L / (period : ℚ))) := by
          simpa using hv.symm
        have hLpos : 0 < L := lt_of_le_of_ne hLnn (Ne.symm hL0)
        have hLdpos : 0 < L / (period : ℚ) := div_pos hLpos hper
        have hGdnn : 0 ≤ G / (period : ℚ) := div_nonneg hGnn (le_of_lt hper)
        have hratio : 0 ≤ (G / (period : ℚ)) / (L / (period : ℚ)) :=
          div_nonneg hGdnn (le_of_lt hLdpos)
        have hden : (1 : ℚ) ≤ 1 + (G / (period : ℚ)) / (L / (period : ℚ)) := by linarith
        have hfrac_le : 100 / (1 + (G / (period : ℚ)) / (L / (period : ℚ))) ≤ 100 :=
          div_le_self (by norm_num) hden
        have hfrac_pos : 0 < 100 / (1 + (G / (period : ℚ)) / (L / (period : ℚ))) :=
          div_pos (by norm_num) (by linarith)
        constructor
        · rw [hveq]; linarith
        · rw [hveq]; linarith

/-- Witness for C2 (amended): for the series `[1, 2, 3]` with period 2,
position 1 (0-indexed 0) is undefined, and the defined value at
position 3 (0-indexed 2) is within `[0, 100]`. -/
theorem C2_rsi_warmup_bounds_witness :
    rsiAt [1, 2, 3] 2 0 = none ∧ ((0 : ℚ) ≤ 100 ∧ (100 : ℚ) ≤ 100) :=
  ⟨(C2_rsi_warmup_bounds [1, 2, 3] 2 0 (by norm_num)).1 (by norm_num),
    ((C2_rsi_warmup_bounds [1, 2, 3] 2 2 (by norm_num)).2 (by norm_num)).2 100
      (by norm_num [rsiAt, rollingMeanGain, rollingMeanLoss, windowSum, gainAt, lossAt,
        diffAt, List.range_succ])⟩

/-- Counterexample for C2 as frozen: with period 2, the second output of
the series `[1, 2, 3]` is already defined (the claim says the first two
are undefined), and the third output of the flat series `[5, 5, 5]` is
undefined (the claim says every output from the third on is defined). -/
theorem C2_counterexample :
    rsiAt [1, 2, 3] 2 1 ≠ none ∧ rsiAt [5, 5, 5] 2 2 = none := by
  constructor
  · have h100 : rsiAt [1, 2, 3] 2 1 = some 100 := by
      norm_num [rsiAt, rollingMeanGain, rollingMeanLoss, windowSum, gainAt, lossAt,
        diffAt, List.range_succ]
    rw [h100]
    exact Option.some_ne_none 100
  · norm_num [rsiAt, rollingMeanGain, rollingMeanLoss, windowSum, gainAt, lossAt,
      diffAt, List.range_succ]
